import Mathlib

/-!
Verification of the buy-bot event-ingestion pipeline.

This file gives a shallow embedding of the pipeline's core components and
proves the spec's testable properties against them:

* `TransactionParser` — the swap extractor (`src/services/parser.ts`, the
  current version: `parseHeliusTransaction`, `swapInvolvesToken`,
  `parseSwapDetails`, `parseTopLevelSwap`, `parseInnerSwap`,
  `calculateSwapAmounts`, `getDEXFromInstructions`).
* `V8` — the earlier extractor version (the one that normalizes raw lamport
  amounts by 1e9 and raw token amounts by 10^decimals itself).
* `SimpleCache` — the dedup cache (`src/utils/cache.ts`), modelled on top of
  an insertion-ordered association list, the semantics of a JavaScript `Map`
  (`set` on a fresh key appends at the end, `set` on a present key updates in
  place keeping its position, `keys().next().value` is the first-inserted
  key, `has`/`get` never reorder entries).
* `BotService` — the ingestion orchestrator (`src/services/botService.ts`):
  `processTransaction`, `handleBatchedNotification` with an explicit timer
  model, and the rate-limited request queue (`queueRequest` /
  `processRequestQueue`) as a discrete-event simulation over millisecond
  timestamps.

Numeric amounts are embedded as rationals (`ℚ`): JavaScript numbers on the
values the claims exercise behave as exact arithmetic, and absent or
non-numeric fields are embedded as `Option.none`.  Wall-clock times are
naturals (milliseconds).  All fallible code paths return `Option`, mirroring
the `try`/`catch`-to-`null` shape of the source.
-/

/-! ### Shared data model -/

/-- A transaction instruction: only the program id is consulted. -/
structure Instruction where
  programId : String
deriving Repr, DecidableEq

/-- Helius `rawTokenAmount` sub-object: an optional mint and an optional
numeric amount (the source stores the amount as a decimal string and applies
`Number(...)`; we embed the resulting numeric value, `none` for an absent or
empty string). -/
structure RawTokenAmount where
  mint : Option String
  tokenAmount : Option ℚ
deriving Repr, DecidableEq

/-- One leg of a swap: optional mint, optional already-normalized numeric
`tokenAmount`, optional `rawTokenAmount` sub-object. -/
structure TokenLeg where
  mint : Option String
  tokenAmount : Option ℚ
  rawTokenAmount : Option RawTokenAmount
deriving Repr, DecidableEq

/-- A nested inner swap: only `tokenInputs`/`tokenOutputs` are consulted. -/
structure InnerSwap where
  tokenInputs : Option (List TokenLeg)
  tokenOutputs : Option (List TokenLeg)
deriving Repr, DecidableEq

/-- One entry of the `events.swap` section. -/
structure SwapEvent where
  tokenInputs : Option (List TokenLeg)
  tokenOutputs : Option (List TokenLeg)
  innerSwaps : Option (List InnerSwap)
deriving Repr, DecidableEq

/-- The variant shape of `events.swap`: an array, a single object, or some
other (invalid) JavaScript value. -/
inductive SwapField where
  | arr : List SwapEvent → SwapField
  | obj : SwapEvent → SwapField
  | invalid : SwapField
deriving Repr, DecidableEq

/-- A raw Helius transaction, restricted to the fields the parser
destructures.  `eventsSwap = none` covers both a missing `events` object and
a missing `events.swap` field. -/
structure RawTransaction where
  signature : String
  timestamp : ℤ
  eventsSwap : Option SwapField
  instructions : Option (List Instruction)
  feePayer : Option String
  source : Option String
deriving Repr, DecidableEq

/-- Trade direction.  `UNKNOWN` is the initial value of the source's local
variable and never escapes into a returned record. -/
inductive TradeType where
  | BUY
  | SELL
  | UNKNOWN
deriving Repr, DecidableEq

/-- The result of `calculateSwapAmounts`. -/
structure SwapDetails where
  amountSol : ℚ
  tokens : ℚ
  type : TradeType
  pricePerToken : ℚ
deriving Repr, DecidableEq

/-- The canonical trade record produced by the extractor.  `timestampMs`
embeds `new Date(timestamp * 1000)` as its epoch-millisecond value. -/
structure TradeRecord where
  signature : String
  buyer : String
  amountSol : ℚ
  tokensBought : ℚ
  pricePerToken : ℚ
  type : TradeType
  timestampMs : ℤ
  dex : String
  isWhale : Bool
deriving Repr, DecidableEq

/-- The configuration values the pipeline consumes (`config.token.*` and
`config.features.*`).  Defaults in the source: `decimals = 6`,
`whaleThreshold = 10`, `batchWindow = 0`, `maxRequestsPerMinute = 50`,
`maxCacheSize = 1000`. -/
structure BotConfig where
  mintAddress : String
  decimals : ℕ
  whaleThreshold : ℚ
  batchWindow : ℕ
  maxRequestsPerMinute : ℕ
deriving Repr

/-- Wrapped-native (wrapped SOL) mint id. -/
def WSOL_MINT : String := "So11111111111111111111111111111111111111112"

/-- USDC mint id. -/
def USDC_MINT : String := "EPjFWdd5AufqSSqeM2qN1xzybapC8G4wEGGkZwyTDt1v"

/-- USDT mint id. -/
def USDT_MINT : String := "Es9vMFrzaCERmJfrF4H2FYD4KCoNkY11McCe8BenwNYB"

/-- JavaScript `x || d` on an optional number: absent and `0` (and, in the
source, `NaN`) are falsy and fall through to the default. -/
def jsOr (a : Option ℚ) (d : ℚ) : ℚ :=
  match a with
  | some q => if q = 0 then d else q
  | none => d

namespace TransactionParser

/-- The static DEX program-id lookup table of the current parser. -/
def DEX_PROGRAMS : List (String × String) :=
  [("675kPX9MHTjS2zt1qfr1NYHuzeLXfQM9H24wFSUt1Mp8", "Raydium"),
   ("JUP6LkbZbjS1jKKwapdHNy74zcZ3tLUZoi5QNyVTaV4", "Jupiter"),
   ("CPMMoo8L3F4NbTegBCKVNunggL7H1ZpdTHKxQB5qKP1C", "Raydium CPMM")]

/-- `getDEXFromInstructions`: first instruction whose program id is in the
table wins; `"Unknown DEX"` otherwise. -/
def getDEXFromInstructions (instructions : List Instruction) : String :=
  match instructions.findSome? (fun inst => DEX_PROGRAMS.lookup inst.programId) with
  | some name => name
  | none => "Unknown DEX"

/-- `swapInvolvesToken`: the tracked mint is referenced on the input or
output side (directly or via `rawTokenAmount.mint`), or inside a nested
inner swap (direct mint only, as in the source). -/
def swapInvolvesToken (swap : SwapEvent) (tokenMint : String) : Bool :=
  let tokenInputs := swap.tokenInputs.getD []
  let tokenOutputs := swap.tokenOutputs.getD []
  let hasTokenInput := tokenInputs.any fun i =>
    i.mint == some tokenMint || (i.rawTokenAmount.bind RawTokenAmount.mint) == some tokenMint
  let hasTokenOutput := tokenOutputs.any fun o =>
    o.mint == some tokenMint || (o.rawTokenAmount.bind RawTokenAmount.mint) == some tokenMint
  let innerHit := (swap.innerSwaps.getD []).any fun inner =>
    (inner.tokenInputs.getD []).any (fun i => i.mint == some tokenMint) ||
    (inner.tokenOutputs.getD []).any (fun o => o.mint == some tokenMint)
  innerHit || hasTokenInput || hasTokenOutput

/-- Membership of an optional mint in the recognized base-asset set
(`[WSOL_MINT, USDC_MINT, USDT_MINT].includes(x?.mint)`). -/
def isBaseMint (m : Option String) : Bool :=
  m == some WSOL_MINT || m == some USDC_MINT || m == some USDT_MINT

/-- The raw-amount fallback of `calculateSwapAmounts`:
`leg.rawTokenAmount?.tokenAmount ? Number(...) / 10 ** decimals : 0`. -/
def rawFallback (leg : TokenLeg) (decimals : ℕ) : ℚ :=
  match leg.rawTokenAmount with
  | some raw =>
    match raw.tokenAmount with
    | some r => r / 10 ^ decimals
    | none => 0
  | none => 0

/-- `calculateSwapAmounts`: tracked-token output plus base input is a BUY,
tracked-token input plus base output is a SELL, anything else is `none`.
The base amount is `leg.tokenAmount || 0` (the source's WSOL and stable
branches are textually identical); the token amount is
`leg.tokenAmount || (rawTokenAmount fallback)`; the price divides only when
`tokens > 0`. -/
def calculateSwapAmounts (cfg : BotConfig)
    (tokenOutput tokenInput baseInput baseOutput : Option TokenLeg) :
    Option SwapDetails :=
  match tokenOutput, baseInput with
  | some o, some bi =>
    let amountSol := jsOr bi.tokenAmount 0
    let tokens := jsOr o.tokenAmount (rawFallback o cfg.decimals)
    some ⟨amountSol, tokens, TradeType.BUY,
      if 0 < tokens then amountSol / tokens else 0⟩
  | _, _ =>
    match tokenInput, baseOutput with
    | some i, some bo =>
      let amountSol := jsOr bo.tokenAmount 0
      let tokens := jsOr i.tokenAmount (rawFallback i cfg.decimals)
      some ⟨amountSol, tokens, TradeType.SELL,
        if 0 < tokens then amountSol / tokens else 0⟩
    | _, _ => none

/-- `parseTopLevelSwap`: locate the tracked-token and base-asset legs among
the top-level inputs/outputs and delegate to `calculateSwapAmounts`. -/
def parseTopLevelSwap (cfg : BotConfig) (swap : SwapEvent) : Option SwapDetails :=
  let tokenInputs := swap.tokenInputs.getD []
  let tokenOutputs := swap.tokenOutputs.getD []
  let tokenOutput := tokenOutputs.find? fun o => o.mint == some cfg.mintAddress
  let tokenInput := tokenInputs.find? fun i => i.mint == some cfg.mintAddress
  let baseInput := tokenInputs.find? fun i => isBaseMint i.mint
  let baseOutput := tokenOutputs.find? fun o => isBaseMint o.mint
  calculateSwapAmounts cfg tokenOutput tokenInput baseInput baseOutput

/-- `parseInnerSwap`: same leg search applied to one inner swap. -/
def parseInnerSwap (cfg : BotConfig) (inner : InnerSwap) : Option SwapDetails :=
  let tokenInputs := inner.tokenInputs.getD []
  let tokenOutputs := inner.tokenOutputs.getD []
  let tokenOutput := tokenOutputs.find? fun o => o.mint == some cfg.mintAddress
  let tokenInput := tokenInputs.find? fun i => i.mint == some cfg.mintAddress
  let baseInput := tokenInputs.find? fun i => isBaseMint i.mint
  let baseOutput := tokenOutputs.find? fun o => isBaseMint o.mint
  calculateSwapAmounts cfg tokenOutput tokenInput baseInput baseOutput

/-- `parseSwapDetails`: top-level legs first, then the first inner swap that
yields a result, else `none`. -/
def parseSwapDetails (cfg : BotConfig) (swap : SwapEvent) : Option SwapDetails :=
  match parseTopLevelSwap cfg swap with
  | some r => some r
  | none => (swap.innerSwaps.getD []).findSome? (parseInnerSwap cfg)

/-- `parseHeliusTransaction` (current version): normalize `events.swap` into
a list (array kept, single object wrapped, invalid value rejected), pick the
first swap involving the tracked token, parse its details, resolve the venue
(`source ||` table lookup) and build the trade record.  Every failure path
returns `none`, as does the source's surrounding `try`/`catch`. -/
def parseHeliusTransaction (cfg : BotConfig) (tx : RawTransaction) :
    Option TradeRecord :=
  match tx.eventsSwap with
  | none => none
  | some sf =>
    let swaps? : Option (List SwapEvent) :=
      match sf with
      | SwapField.arr l => some l
      | SwapField.obj s => some [s]
      | SwapField.invalid => none
    match swaps? with
    | none => none
    | some swaps =>
      if swaps.isEmpty then none
      else
        match swaps.find? (fun s => swapInvolvesToken s cfg.mintAddress) with
        | none => none
        | some relevantSwap =>
          match parseSwapDetails cfg relevantSwap with
          | none => none
          | some d =>
            let dex :=
              match tx.source with
              | some s => s
              | none => getDEXFromInstructions (tx.instructions.getD [])
            some { signature := tx.signature
                   buyer := tx.feePayer.getD "Unknown"
                   amountSol := d.amountSol
                   tokensBought := d.tokens
                   pricePerToken := d.pricePerToken
                   type := d.type
                   timestampMs := tx.timestamp * 1000
                   dex := dex
                   isWhale := decide (cfg.whaleThreshold ≤ d.amountSol) }

end TransactionParser

/-! ### Earlier extractor version (the one normalizing raw integer amounts)

The repository also ships the previous revision of the parser, in which the
Helius payload still carries raw integer amounts: the wrapped-native leg is
divided by 1e9 (lamports to SOL), stable-coin legs by 1e6, and the tracked
token leg by `10 ^ config.token.decimals`.  The spec's BUY scenario is stated
against this normalization. -/

namespace V8

/-- A swap leg in the raw-amount payload: mint plus raw numeric amount. -/
structure TokenLeg where
  mint : String
  tokenAmount : ℚ
deriving Repr, DecidableEq

/-- One entry of `events.swap` in the raw-amount payload. -/
structure SwapEvent where
  tokenInputs : Option (List TokenLeg)
  tokenOutputs : Option (List TokenLeg)
deriving Repr, DecidableEq

/-- A raw transaction as destructured by this parser version;
`eventsSwap = none` covers a missing `events` object or `events.swap`. -/
structure RawTransaction where
  signature : String
  timestamp : ℤ
  eventsSwap : Option (List SwapEvent)
  instructions : Option (List Instruction)
  feePayer : Option String
deriving Repr, DecidableEq

/-- This version's DEX table (Raydium and Jupiter only). -/
def DEX_PROGRAMS : List (String × String) :=
  [("675kPX9MHTjS2zt1qfr1NYHuzeLXfQM9H24wFSUt1Mp8", "Raydium"),
   ("JUP6LkbZbjS1jKKwapdHNy74zcZ3tLUZoi5QNyVTaV4", "Jupiter")]

/-- `getDEXFromInstructions` of this version. -/
def getDEXFromInstructions (instructions : List Instruction) : String :=
  match instructions.findSome? (fun inst => DEX_PROGRAMS.lookup inst.programId) with
  | some name => name
  | none => "Unknown DEX"

/-- Whether a mint is in the recognized base-asset set. -/
def isBaseMint (m : String) : Bool :=
  m == WSOL_MINT || m == USDC_MINT || m == USDT_MINT

/-- `parseHeliusTransaction` of the raw-amount version: scan `events.swap`
for the first swap whose inputs or outputs reference the tracked mint; the
BUY branch takes the base-input leg (WSOL divided by 1e9, stables by 1e6) and
the tracked-output leg divided by `10 ^ decimals`; the SELL branch is
symmetric; else `none`. -/
def parseHeliusTransaction (cfg : BotConfig) (tx : RawTransaction) :
    Option TradeRecord :=
  match tx.eventsSwap with
  | none => none
  | some swaps =>
    if swaps.isEmpty then none
    else
      match swaps.find? (fun s =>
        (s.tokenInputs.getD []).any (fun i => i.mint == cfg.mintAddress) ||
        (s.tokenOutputs.getD []).any (fun o => o.mint == cfg.mintAddress)) with
      | none => none
      | some relevantSwap =>
        let tokenOutput := (relevantSwap.tokenOutputs.getD []).find? fun o =>
          o.mint == cfg.mintAddress
        let tokenInput := (relevantSwap.tokenInputs.getD []).find? fun i =>
          i.mint == cfg.mintAddress
        let baseInput := (relevantSwap.tokenInputs.getD []).find? fun i =>
          isBaseMint i.mint
        let baseOutput := (relevantSwap.tokenOutputs.getD []).find? fun o =>
          isBaseMint o.mint
        let details : Option (ℚ × ℚ × TradeType) :=
          match tokenOutput, baseInput with
          | some o, some bi =>
            let amountSol :=
              if bi.mint == WSOL_MINT then bi.tokenAmount / 1000000000
              else bi.tokenAmount / 1000000
            some (amountSol, o.tokenAmount / 10 ^ cfg.decimals, TradeType.BUY)
          | _, _ =>
            match tokenInput, baseOutput with
            | some i, some bo =>
              let amountSol :=
                if bo.mint == WSOL_MINT then bo.tokenAmount / 1000000000
                else bo.tokenAmount / 1000000
              some (amountSol, i.tokenAmount / 10 ^ cfg.decimals, TradeType.SELL)
            | _, _ => none
        match details with
        | none => none
        | some (amountSol, tokens, ty) =>
          some { signature := tx.signature
                 buyer := tx.feePayer.getD "Unknown"
                 amountSol := amountSol
                 tokensBought := tokens
                 pricePerToken := if 0 < tokens then amountSol / tokens else 0
                 type := ty
                 timestampMs := tx.timestamp * 1000
                 dex := getDEXFromInstructions (tx.instructions.getD [])
                 isWhale := decide (cfg.whaleThreshold ≤ amountSol) }

end V8

/-! ### The dedup cache (`SimpleCache`)

The underlying container is a JavaScript `Map`, which iterates in key
insertion order: we embed it as an association list whose order is the
insertion order of the keys. -/

/-- `Map.prototype.set`: update in place when the key is present (keeping
its position), append at the end otherwise. -/
def mapSet (l : List (String × ℤ)) (k : String) (v : ℤ) : List (String × ℤ) :=
  if l.any (fun p => p.1 == k) then
    l.map (fun p => if p.1 == k then (k, v) else p)
  else
    l ++ [(k, v)]

/-- The bounded dedup cache: insertion-ordered entries plus a capacity. -/
structure SimpleCache where
  entries : List (String × ℤ)
  maxSize : ℕ
deriving Repr, DecidableEq

namespace SimpleCache

/-- A fresh cache of the given capacity. -/
def empty (maxSize : ℕ) : SimpleCache := ⟨[], maxSize⟩

/-- `size()`: the number of entries. -/
def size (c : SimpleCache) : ℕ := c.entries.length

/-- `has(key)`: a pure read, never reordering entries. -/
def has (c : SimpleCache) (k : String) : Bool :=
  c.entries.any (fun p => p.1 == k)

/-- `get(key)`: a pure read, never reordering entries. -/
def get (c : SimpleCache) (k : String) : Option ℤ :=
  (c.entries.find? (fun p => p.1 == k)).map (·.2)

/-- `set(key, value)`: if at capacity, delete the first-inserted key
(`keys().next().value`), then `Map.set`.  On the empty map the source
deletes `undefined`, a no-op, matching `List.tail [] = []`. -/
def set (c : SimpleCache) (k : String) (v : ℤ) : SimpleCache :=
  let entries :=
    if c.maxSize ≤ c.entries.length then c.entries.tail else c.entries
  ⟨mapSet entries k v, c.maxSize⟩

/-- The keys in insertion order. -/
def keys (c : SimpleCache) : List String := c.entries.map Prod.fst

end SimpleCache

/-! ### The ingestion orchestrator (`BotService`)

`processTransaction` is embedded as a pure state transformer.  Besides the
dedup cache and the batch-bucket map, the state carries two append-only logs
used to observe behavior: `notifications` records each immediate
`sendTradeNotification` attempt, `batchNotifications` each non-empty batch
flush.  Pending `setTimeout` flush callbacks are reified in `batchTimers`. -/

/-- The batch-bucket map entry lookup (`batchQueue.get(key)`). -/
def bqGet (q : List (ℕ × List TradeRecord)) (k : ℕ) : Option (List TradeRecord) :=
  (q.find? (fun p => p.1 == k)).map (·.2)

/-- `batchQueue.has(key)`. -/
def bqHas (q : List (ℕ × List TradeRecord)) (k : ℕ) : Bool :=
  q.any (fun p => p.1 == k)

/-- `batchQueue.get(key)?.push(trade)`: append to the bucket when the key is
present, otherwise do nothing (optional chaining). -/
def bqPush (q : List (ℕ × List TradeRecord)) (k : ℕ) (t : TradeRecord) :
    List (ℕ × List TradeRecord) :=
  q.map (fun p => if p.1 == k then (p.1, p.2 ++ [t]) else p)

/-- The orchestrator's mutable state. -/
structure BotState where
  processedTx : SimpleCache
  batchQueue : List (ℕ × List TradeRecord)
  batchTimers : List (ℕ × ℕ)
  notifications : List TradeRecord
  batchNotifications : List (List TradeRecord)
deriving Repr, DecidableEq

/-- A fresh orchestrator state with the given dedup-cache capacity. -/
def BotState.empty (maxCacheSize : ℕ) : BotState :=
  ⟨SimpleCache.empty maxCacheSize, [], [], [], []⟩

/-- `handleBatchedNotification`: compute the bucket key
`Math.floor(now / (batchWindow * 1000))`; on first use of the key create the
empty bucket and schedule its flush `batchWindow * 1000` ms ahead; then push
the trade into the bucket.  The source returns `true` unconditionally; the
caller propagates that. -/
def handleBatchedNotification (cfg : BotConfig) (now : ℕ) (tradeData : TradeRecord)
    (s : BotState) : BotState :=
  let batchKey := now / (cfg.batchWindow * 1000)
  let s1 :=
    if bqHas s.batchQueue batchKey then s
    else
      { s with batchQueue := s.batchQueue ++ [(batchKey, [])]
               batchTimers := s.batchTimers ++ [(batchKey, now + cfg.batchWindow * 1000)] }
  { s1 with batchQueue := bqPush s1.batchQueue batchKey tradeData }

/-- The flush callback scheduled by `handleBatchedNotification`: read the
bucket, delete it from the map, and when it is non-empty emit one aggregate
notification (`processBatch`, whose own send failure is caught and logged).
Firing on an already-deleted or empty bucket is a no-op. -/
def flushBucket (k : ℕ) (s : BotState) : BotState :=
  let batch := bqGet s.batchQueue k
  let s1 :=
    { s with batchQueue := s.batchQueue.filter (fun p => !(p.1 == k))
             batchTimers := s.batchTimers.filter (fun p => !(p.1 == k)) }
  match batch with
  | some l => if l.isEmpty then s1 else
      { s1 with batchNotifications := s1.batchNotifications ++ [l] }
  | none => s1

/-- The observable outcome of one `processTransaction` call:
the returned boolean, the post-state, and how many times the extractor
(`TransactionParser.parseHeliusTransaction`) was invoked during the call. -/
structure ProcResult where
  processed : Bool
  state : BotState
  extractorCalls : ℕ
deriving Repr, DecidableEq

/-- `BotService.processTransaction`: skip when the signature is cached
(without touching the extractor); run the extractor, dropping the
transaction when it yields no trade; otherwise insert the signature into the
dedup cache, then either hand the record to the batching window
(`batchWindow > 0`) or attempt the immediate notification, whose outcome
`sendOk` is swallowed by the source's `try`/`catch` and does not affect the
returned value. -/
def processTransaction (cfg : BotConfig) (now : ℕ) (sendOk : Bool) (s : BotState)
    (tx : RawTransaction) : ProcResult :=
  if s.processedTx.has tx.signature then ⟨false, s, 0⟩
  else
    match TransactionParser.parseHeliusTransaction cfg tx with
    | none => ⟨false, s, 1⟩
    | some tradeData =>
      let s1 := { s with processedTx := s.processedTx.set tx.signature (now : ℤ) }
      if 0 < cfg.batchWindow then
        ⟨true, handleBatchedNotification cfg now tradeData s1, 1⟩
      else
        let _ := sendOk
        ⟨true, { s1 with notifications := s1.notifications ++ [tradeData] }, 1⟩

/-! ### Concrete fixtures used by scenario theorems and witnesses -/

/-- A tracked-token mint id distinct from every base-asset mint. -/
def trackedMint : String := "TrackedMint111111111111111111111111111111111"

/-- The configuration defaults of the source (`decimals = 6`,
`whaleThreshold = 10`, `batchWindow = 0`, `maxRequestsPerMinute = 50`) with
the tracked mint above. -/
def cfgFixture : BotConfig :=
  { mintAddress := trackedMint
    decimals := 6
    whaleThreshold := 10
    batchWindow := 0
    maxRequestsPerMinute := 50 }

/-- The spec's BUY scenario payload: one swap whose input leg is the wrapped
native mint with raw amount 2\_000\_000\_000 and whose output leg is the
tracked token with raw amount 500\_000\_000. -/
def v8BuyTx : V8.RawTransaction :=
  { signature := "sig-buy-1"
    timestamp := 1700000000
    eventsSwap := some
      [{ tokenInputs := some [{ mint := WSOL_MINT, tokenAmount := 2000000000 }]
         tokenOutputs := some [{ mint := trackedMint, tokenAmount := 500000000 }] }]
    instructions := some []
    feePayer := some "buyer1" }

/-- C1.  BUY-scenario extraction: on a swap with tracked-token output leg of
raw amount 500\_000\_000 (token decimals 6) and wrapped-native input leg of
raw amount 2\_000\_000\_000, the extractor yields a BUY trade record with
`baseAmount = 2`, `tokenAmount = 500` and `pricePerToken = 1/250 = 0.004`:
the base leg is normalized by the native asset's 9 decimals and the token
leg by the configured token decimals. -/
theorem C1_buy_scenario_extraction :
    (V8.parseHeliusTransaction cfgFixture v8BuyTx).map
        (fun r => (r.type, r.amountSol, r.tokensBought, r.pricePerToken)) =
      some (TradeType.BUY, 2, 500, 1 / 250) := by
  simp only [V8.parseHeliusTransaction, v8BuyTx, cfgFixture, V8.isBaseMint,
    trackedMint, WSOL_MINT, USDC_MINT, USDT_MINT]
  norm_num [List.find?, List.isEmpty]

/-! ### The extractor's none-paths and price invariant -/

/-- The normalized swap-entry sequence of a transaction: the array kept as
is, a single object wrapped into a one-element list, and a missing or
invalid `events.swap` normalizing to the empty sequence. -/
def txSwaps (tx : RawTransaction) : List SwapEvent :=
  match tx.eventsSwap with
  | some (SwapField.arr l) => l
  | some (SwapField.obj s) => [s]
  | _ => []

/-- C4.  If no swap entry of the transaction (the check covering both sides
of the top-level legs, their `rawTokenAmount` mints, and the legs of every
nested inner swap) references the tracked token, the parser returns
`none`. -/
theorem C4_no_tracked_leg_none (cfg : BotConfig) (tx : RawTransaction)
    (h : ∀ s ∈ txSwaps tx, TransactionParser.swapInvolvesToken s cfg.mintAddress = false) :
    TransactionParser.parseHeliusTransaction cfg tx = none := by
  unfold TransactionParser.parseHeliusTransaction
  rcases tx with ⟨sig, ts, ev, ins, fp, src⟩
  rcases ev with _ | sf
  · rfl
  · rcases sf with l | s | _
    · simp only [txSwaps] at h
      rcases hl : l with _ | ⟨a, t⟩
      · simp
      · have hfind : (a :: t).find?
            (fun s => TransactionParser.swapInvolvesToken s cfg.mintAddress) = none := by
          rw [List.find?_eq_none]
          intro x hx
          simp [h x (hl ▸ hx)]
        simp [hfind]
    · simp only [txSwaps] at h
      have hs := h s (by simp)
      have hfind : [s].find?
          (fun s => TransactionParser.swapInvolvesToken s cfg.mintAddress) = none := by
        rw [List.find?_eq_none]
        intro x hx
        simp at hx
        simp [hx, hs]
      simp [hfind]
    · rfl

/-- A transaction that violates C4's hypothesis trivially does not exist for
this witness payload: one token-to-token swap with neither side referencing
the tracked token. -/
def noLegTx : RawTransaction :=
  { signature := "sig-noleg-1"
    timestamp := 1700000001
    eventsSwap := some (SwapField.arr
      [{ tokenInputs := some [{ mint := some "OtherMintA", tokenAmount := some 5,
                                rawTokenAmount := none }]
         tokenOutputs := some [{ mint := some "OtherMintB", tokenAmount := some 7,
                                 rawTokenAmount := none }]
         innerSwaps := none }])
    instructions := some []
    feePayer := some "buyer2"
    source := none }

/-- Witness for C4 at the concrete token-to-token swap payload. -/
theorem C4_no_tracked_leg_none_witness :
    (∀ s ∈ txSwaps noLegTx,
      TransactionParser.swapInvolvesToken s cfgFixture.mintAddress = false) ∧
    TransactionParser.parseHeliusTransaction cfgFixture noLegTx = none := by
  refine ⟨by decide, C4_no_tracked_leg_none cfgFixture noLegTx (by decide)⟩

/-- The price invariant a `SwapDetails` value satisfies. -/
def priceInvariant (amountSol tokens pricePerToken : ℚ) : Prop :=
  (0 < tokens → pricePerToken = amountSol / tokens) ∧
  (tokens = 0 → pricePerToken = 0)

lemma ite_priceInvariant (a t : ℚ) :
    priceInvariant a t (if 0 < t then a / t else 0) := by
  constructor
  · intro h0
    rw [if_pos h0]
  · intro h0
    rw [h0]
    simp

lemma calculateSwapAmounts_price (cfg : BotConfig)
    (tokenOutput tokenInput baseInput baseOutput : Option TokenLeg)
    (d : SwapDetails)
    (h : TransactionParser.calculateSwapAmounts cfg tokenOutput tokenInput
          baseInput baseOutput = some d) :
    priceInvariant d.amountSol d.tokens d.pricePerToken := by
  unfold TransactionParser.calculateSwapAmounts at h
  rcases tokenOutput with _ | o <;> rcases baseInput with _ | bi <;>
    rcases tokenInput with _ | i <;> rcases baseOutput with _ | bo <;>
    simp only [] at h <;>
    first
    | exact Option.noConfusion h
    | · obtain rfl := Option.some.inj h
        exact ite_priceInvariant _ _

lemma parseTopLevelSwap_price (cfg : BotConfig) (swap : SwapEvent) (d : SwapDetails)
    (h : TransactionParser.parseTopLevelSwap cfg swap = some d) :
    priceInvariant d.amountSol d.tokens d.pricePerToken :=
  calculateSwapAmounts_price cfg _ _ _ _ d h

lemma parseInnerSwap_price (cfg : BotConfig) (inner : InnerSwap) (d : SwapDetails)
    (h : TransactionParser.parseInnerSwap cfg inner = some d) :
    priceInvariant d.amountSol d.tokens d.pricePerToken :=
  calculateSwapAmounts_price cfg _ _ _ _ d h

lemma parseSwapDetails_price (cfg : BotConfig) (swap : SwapEvent) (d : SwapDetails)
    (h : TransactionParser.parseSwapDetails cfg swap = some d) :
    priceInvariant d.amountSol d.tokens d.pricePerToken := by
  unfold TransactionParser.parseSwapDetails at h
  cases htl : TransactionParser.parseTopLevelSwap cfg swap with
  | some r =>
    rw [htl] at h
    obtain rfl := Option.some.inj h
    exact parseTopLevelSwap_price cfg swap _ htl
  | none =>
    rw [htl] at h
    obtain ⟨inner, _, hinner⟩ := List.exists_of_findSome?_eq_some h
    exact parseInnerSwap_price cfg inner d hinner

lemma parseHeliusTransaction_details (cfg : BotConfig) (tx : RawTransaction)
    (r : TradeRecord)
    (h : TransactionParser.parseHeliusTransaction cfg tx = some r) :
    ∃ swap d, TransactionParser.parseSwapDetails cfg swap = some d ∧
      r.amountSol = d.amountSol ∧ r.tokensBought = d.tokens ∧
      r.pricePerToken = d.pricePerToken := by
  unfold TransactionParser.parseHeliusTransaction at h
  rcases tx with ⟨sig, ts, ev, ins, fp, src⟩
  rcases ev with _ | sf
  · exact absurd h (by simp)
  · rcases sf with l | s | _
    all_goals simp only [] at h
    · by_cases hemp : l.isEmpty = true
      · rw [if_pos hemp] at h
        exact Option.noConfusion h
      · rw [if_neg hemp] at h
        cases hfind : l.find? (fun s =>
            TransactionParser.swapInvolvesToken s cfg.mintAddress) with
        | none => rw [hfind] at h; exact Option.noConfusion h
        | some swap =>
          rw [hfind] at h
          simp only [] at h
          cases hdet : TransactionParser.parseSwapDetails cfg swap with
          | none => rw [hdet] at h; exact Option.noConfusion h
          | some d =>
            rw [hdet] at h
            obtain rfl := (Option.some.inj h).symm
            exact ⟨swap, d, hdet, rfl, rfl, rfl⟩
    · rw [if_neg (by simp)] at h
      cases hfind : [s].find? (fun s =>
          TransactionParser.swapInvolvesToken s cfg.mintAddress) with
      | none => rw [hfind] at h; exact Option.noConfusion h
      | some swap =>
        rw [hfind] at h
        simp only [] at h
        cases hdet : TransactionParser.parseSwapDetails cfg swap with
        | none => rw [hdet] at h; exact Option.noConfusion h
        | some d =>
          rw [hdet] at h
          obtain rfl := (Option.some.inj h).symm
          exact ⟨swap, d, hdet, rfl, rfl, rfl⟩
    · exact Option.noConfusion h

/-- C5.  Every trade record the extractor constructs satisfies the price
law: when `tokenAmount > 0` the price is exactly `baseAmount / tokenAmount`,
and when `tokenAmount = 0` the price is `0` — the source guards the division
behind `tokens > 0`, so it is never performed on a zero denominator. -/
theorem C5_price_exact (cfg : BotConfig) (tx : RawTransaction) (r : TradeRecord)
    (h : TransactionParser.parseHeliusTransaction cfg tx = some r) :
    (0 < r.tokensBought → r.pricePerToken = r.amountSol / r.tokensBought) ∧
    (r.tokensBought = 0 → r.pricePerToken = 0) := by
  obtain ⟨swap, d, hdet, ha, ht, hp⟩ := parseHeliusTransaction_details cfg tx r h
  rw [ha, ht, hp]
  exact parseSwapDetails_price cfg swap d hdet

/-- A concrete BUY payload in the current parser's leg format. -/
def v2BuyTx : RawTransaction :=
  { signature := "sig-buy-2"
    timestamp := 1700000002
    eventsSwap := some (SwapField.arr
      [{ tokenInputs := some [{ mint := some WSOL_MINT, tokenAmount := some 2,
                                rawTokenAmount := none }]
         tokenOutputs := some [{ mint := some trackedMint, tokenAmount := some 500,
                                 rawTokenAmount := none }]
         innerSwaps := none }])
    instructions := some []
    feePayer := some "buyer3"
    source := none }

/-- The trade record the current parser produces for `v2BuyTx`. -/
def v2BuyRec : TradeRecord :=
  { signature := "sig-buy-2"
    buyer := "buyer3"
    amountSol := 2
    tokensBought := 500
    pricePerToken := 1 / 250
    type := TradeType.BUY
    timestampMs := 1700000002000
    dex := "Unknown DEX"
    isWhale := false }

lemma v2BuyTx_parses :
    TransactionParser.parseHeliusTransaction cfgFixture v2BuyTx = some v2BuyRec := by
  simp only [TransactionParser.parseHeliusTransaction, TransactionParser.parseSwapDetails,
    TransactionParser.parseTopLevelSwap, TransactionParser.calculateSwapAmounts,
    TransactionParser.swapInvolvesToken, TransactionParser.isBaseMint,
    TransactionParser.rawFallback, TransactionParser.getDEXFromInstructions, jsOr,
    v2BuyTx, cfgFixture, trackedMint, WSOL_MINT, USDC_MINT, USDT_MINT, v2BuyRec]
  norm_num [List.find?, List.isEmpty, List.findSome?]

/-- Witness for C5 at the concrete BUY payload. -/
theorem C5_price_exact_witness :
    TransactionParser.parseHeliusTransaction cfgFixture v2BuyTx = some v2BuyRec ∧
    ((0 < v2BuyRec.tokensBought →
        v2BuyRec.pricePerToken = v2BuyRec.amountSol / v2BuyRec.tokensBought) ∧
      (v2BuyRec.tokensBought = 0 → v2BuyRec.pricePerToken = 0)) :=
  ⟨v2BuyTx_parses, C5_price_exact cfgFixture v2BuyTx v2BuyRec v2BuyTx_parses⟩

/-- C6.  When extraction yields no trade (which includes every malformed
shape: the extractor is a total function into `Option`, mirroring the
source's `try`/`catch`-to-`null`, so extraction never throws to the
orchestrator), `processTransaction` returns `false` and leaves the entire
state — dedup cache included — unchanged. -/
theorem C6_no_trade_no_effect (cfg : BotConfig) (now : ℕ) (sendOk : Bool)
    (s : BotState) (tx : RawTransaction)
    (h : TransactionParser.parseHeliusTransaction cfg tx = none) :
    (processTransaction cfg now sendOk s tx).processed = false ∧
    (processTransaction cfg now sendOk s tx).state = s := by
  unfold processTransaction
  by_cases hc : s.processedTx.has tx.signature = true
  · rw [if_pos hc]
    exact ⟨rfl, rfl⟩
  · rw [if_neg hc, h]
    exact ⟨rfl, rfl⟩

/-- A malformed payload: `events.swap` is neither an array nor an object. -/
def malformedTx : RawTransaction :=
  { signature := "sig-bad-1"
    timestamp := 0
    eventsSwap := some SwapField.invalid
    instructions := none
    feePayer := none
    source := none }

/-- Witness for C6 at the malformed payload on a fresh orchestrator state. -/
theorem C6_no_trade_no_effect_witness :
    TransactionParser.parseHeliusTransaction cfgFixture malformedTx = none ∧
    ((processTransaction cfgFixture 0 true (BotState.empty 1000) malformedTx).processed
        = false ∧
      (processTransaction cfgFixture 0 true (BotState.empty 1000) malformedTx).state
        = BotState.empty 1000) :=
  ⟨rfl, C6_no_trade_no_effect cfgFixture 0 true (BotState.empty 1000) malformedTx rfl⟩

/-! ### Dedup idempotence (orchestrator) -/

lemma mapSet_has (l : List (String × ℤ)) (k : String) (v : ℤ) :
    (mapSet l k v).any (fun p => p.1 == k) = true := by
  unfold mapSet
  by_cases hmem : l.any (fun p => p.1 == k) = true
  · rw [if_pos hmem]
    rcases List.any_eq_true.mp hmem with ⟨p, hp, hpk⟩
    refine List.any_eq_true.mpr ⟨(k, v), List.mem_map.mpr ⟨p, hp, ?_⟩, by simp⟩
    rw [if_pos hpk]
  · rw [if_neg hmem]
    exact List.any_eq_true.mpr ⟨(k, v), by simp, by simp⟩

lemma cacheHas_set_self (c : SimpleCache) (k : String) (v : ℤ) :
    (c.set k v).has k = true := by
  unfold SimpleCache.set SimpleCache.has
  exact mapSet_has _ k v

lemma handleBatched_processedTx (cfg : BotConfig) (now : ℕ) (t : TradeRecord)
    (s : BotState) :
    (handleBatchedNotification cfg now t s).processedTx = s.processedTx := by
  unfold handleBatchedNotification
  by_cases h : bqHas s.batchQueue (now / (cfg.batchWindow * 1000)) = true <;> simp [h]

lemma processTransaction_fresh_some (cfg : BotConfig) (now : ℕ) (sendOk : Bool)
    (s : BotState) (tx : RawTransaction) (trade : TradeRecord)
    (hc : ¬s.processedTx.has tx.signature = true)
    (hp : TransactionParser.parseHeliusTransaction cfg tx = some trade) :
    (processTransaction cfg now sendOk s tx).processed = true ∧
    (processTransaction cfg now sendOk s tx).state.processedTx
      = s.processedTx.set tx.signature (now : ℤ) := by
  unfold processTransaction
  rw [if_neg hc, hp]
  simp only []
  by_cases hb : 0 < cfg.batchWindow
  · rw [if_pos hb]
    exact ⟨rfl, handleBatched_processedTx _ _ _ _⟩
  · rw [if_neg hb]
    exact ⟨rfl, rfl⟩

lemma processTransaction_cached (cfg : BotConfig) (now : ℕ) (sendOk : Bool)
    (s : BotState) (tx : RawTransaction)
    (hc : s.processedTx.has tx.signature = true) :
    processTransaction cfg now sendOk s tx = ⟨false, s, 0⟩ := by
  unfold processTransaction
  rw [if_pos hc]

lemma processTransaction_noTrade (cfg : BotConfig) (now : ℕ) (sendOk : Bool)
    (s : BotState) (tx : RawTransaction)
    (hc : ¬s.processedTx.has tx.signature = true)
    (hp : TransactionParser.parseHeliusTransaction cfg tx = none) :
    processTransaction cfg now sendOk s tx = ⟨false, s, 1⟩ := by
  unfold processTransaction
  rw [if_neg hc, hp]

/-- C2 (amended).  For every transaction fed twice through the
orchestrator: the second call returns `processed = false` and the dedup
cache size does not change between the calls; moreover, whenever the first
call actually processed the transaction (`processed = true`), the second
call does not invoke the extractor at all.  (The unconditional no-extractor
part of the original claim fails: see the counterexample.) -/
theorem C2_second_call_skipped (cfg : BotConfig) (now1 now2 : ℕ) (ok1 ok2 : Bool)
    (s : BotState) (tx : RawTransaction) :
    (processTransaction cfg now2 ok2
        (processTransaction cfg now1 ok1 s tx).state tx).processed = false ∧
    (processTransaction cfg now2 ok2
        (processTransaction cfg now1 ok1 s tx).state tx).state.processedTx.size
      = (processTransaction cfg now1 ok1 s tx).state.processedTx.size ∧
    ((processTransaction cfg now1 ok1 s tx).processed = true →
      (processTransaction cfg now2 ok2
        (processTransaction cfg now1 ok1 s tx).state tx).extractorCalls = 0) := by
  by_cases hc : s.processedTx.has tx.signature = true
  · have h1 := processTransaction_cached cfg now1 ok1 s tx hc
    rw [h1]
    simp only []
    rw [processTransaction_cached cfg now2 ok2 s tx hc]
    exact ⟨rfl, rfl, fun h => absurd h (by simp)⟩
  · cases hp : TransactionParser.parseHeliusTransaction cfg tx with
    | none =>
      have h1 := processTransaction_noTrade cfg now1 ok1 s tx hc hp
      rw [h1]
      simp only []
      rw [processTransaction_noTrade cfg now2 ok2 s tx hc hp]
      exact ⟨rfl, rfl, fun h => absurd h (by simp)⟩
    | some trade =>
      obtain ⟨hproc1, hcache1⟩ :=
        processTransaction_fresh_some cfg now1 ok1 s tx trade hc hp
      have hhas : (processTransaction cfg now1 ok1 s tx).state.processedTx.has
          tx.signature = true := by
        rw [hcache1]
        exact cacheHas_set_self _ _ _
      rw [processTransaction_cached cfg now2 ok2
        (processTransaction cfg now1 ok1 s tx).state tx hhas]
      exact ⟨rfl, rfl, fun _ => rfl⟩

/-- A transaction with no swap events at all. -/
def noSwapTx : RawTransaction :=
  { signature := "sig-dup-1"
    timestamp := 0
    eventsSwap := none
    instructions := none
    feePayer := none
    source := none }

/-- C2 counterexample.  For a transaction the extractor rejects (here: no
swap events), the first call does not insert the signature, so the second
call with the same signature invokes the extractor again
(`extractorCalls = 1`, not `0`), refuting the claim's "the second call does
not invoke the extractor" for arbitrary transactions. -/
theorem C2_counterexample_extractor_reinvoked :
    (processTransaction cfgFixture 1 true
        (processTransaction cfgFixture 0 true (BotState.empty 1000) noSwapTx).state
        noSwapTx).processed = false ∧
    (processTransaction cfgFixture 1 true
        (processTransaction cfgFixture 0 true (BotState.empty 1000) noSwapTx).state
        noSwapTx).extractorCalls = 1 ∧
    ¬(processTransaction cfgFixture 1 true
        (processTransaction cfgFixture 0 true (BotState.empty 1000) noSwapTx).state
        noSwapTx).extractorCalls = 0 := by
  decide

/-- Witness for the amended C2 at a transaction the first call processes. -/
theorem C2_second_call_skipped_witness :
    (processTransaction cfgFixture 0 true (BotState.empty 1000) v2BuyTx).processed
      = true ∧
    ((processTransaction cfgFixture 1 false
        (processTransaction cfgFixture 0 true (BotState.empty 1000) v2BuyTx).state
        v2BuyTx).processed = false ∧
      (processTransaction cfgFixture 1 false
          (processTransaction cfgFixture 0 true (BotState.empty 1000) v2BuyTx).state
          v2BuyTx).state.processedTx.size
        = (processTransaction cfgFixture 0 true (BotState.empty 1000) v2BuyTx).state.processedTx.size ∧
      (processTransaction cfgFixture 1 false
          (processTransaction cfgFixture 0 true (BotState.empty 1000) v2BuyTx).state
          v2BuyTx).extractorCalls = 0) := by
  have hproc : (processTransaction cfgFixture 0 true (BotState.empty 1000) v2BuyTx).processed
      = true :=
    (processTransaction_fresh_some cfgFixture 0 true (BotState.empty 1000) v2BuyTx
      v2BuyRec (by decide) v2BuyTx_parses).1
  have hmain := C2_second_call_skipped cfgFixture 0 1 true false
    (BotState.empty 1000) v2BuyTx
  exact ⟨hproc, hmain.1, hmain.2.1, hmain.2.2 hproc⟩

/-- C9.  With batching disabled, a fresh qualifying transaction makes
`processTransaction` return `true` regardless of the notification send
outcome (the source catches and logs the send error), exactly one
notification attempt is recorded, the signature is in the dedup cache
afterwards, and a redelivery of the same signature returns `false` without
changing the state — in particular without a second notification
attempt. -/
theorem C9_send_failure_swallowed (cfg : BotConfig) (now : ℕ) (sendOk : Bool)
    (s : BotState) (tx : RawTransaction) (trade : TradeRecord)
    (hw : cfg.batchWindow = 0)
    (hfresh : s.processedTx.has tx.signature = false)
    (hparse : TransactionParser.parseHeliusTransaction cfg tx = some trade) :
    (processTransaction cfg now sendOk s tx).processed = true ∧
    (processTransaction cfg now sendOk s tx).state.processedTx.has tx.signature
      = true ∧
    (processTransaction cfg now sendOk s tx).state.notifications
      = s.notifications ++ [trade] ∧
    processTransaction cfg now sendOk s tx = processTransaction cfg now true s tx ∧
    (∀ (now2 : ℕ) (ok2 : Bool),
      (processTransaction cfg now2 ok2 (processTransaction cfg now sendOk s tx).state
          tx).processed = false ∧
      (processTransaction cfg now2 ok2 (processTransaction cfg now sendOk s tx).state
          tx).state = (processTransaction cfg now sendOk s tx).state) := by
  have hc : ¬s.processedTx.has tx.signature = true := by
    rw [hfresh]
    simp
  have hchar : ∀ ok : Bool, processTransaction cfg now ok s tx =
      ⟨true,
        { s with processedTx := s.processedTx.set tx.signature (now : ℤ)
                 notifications := s.notifications ++ [trade] }, 1⟩ := by
    intro ok
    unfold processTransaction
    rw [if_neg hc, hparse]
    simp only []
    rw [if_neg (by rw [hw]; simp)]
  have hhas : ((⟨true,
      { s with processedTx := s.processedTx.set tx.signature (now : ℤ)
               notifications := s.notifications ++ [trade] }, 1⟩ : ProcResult)).state.processedTx.has
      tx.signature = true := cacheHas_set_self _ _ _
  refine ⟨by rw [hchar sendOk], ?_, by rw [hchar sendOk], ?_, ?_⟩
  · rw [hchar sendOk]
    exact cacheHas_set_self _ _ _
  · rw [hchar sendOk, hchar true]
  · intro now2 ok2
    rw [hchar sendOk]
    rw [processTransaction_cached cfg now2 ok2 _ tx hhas]
    exact ⟨rfl, rfl⟩

/-- Witness for C9 at the concrete BUY payload with a failing send. -/
theorem C9_send_failure_swallowed_witness :
    cfgFixture.batchWindow = 0 ∧
    (BotState.empty 1000).processedTx.has v2BuyTx.signature = false ∧
    ((processTransaction cfgFixture 0 false (BotState.empty 1000) v2BuyTx).processed
        = true ∧
      (processTransaction cfgFixture 0 false (BotState.empty 1000)
          v2BuyTx).state.notifications = [] ++ [v2BuyRec]) := by
  have h := C9_send_failure_swallowed cfgFixture 0 false (BotState.empty 1000)
    v2BuyTx v2BuyRec rfl rfl v2BuyTx_parses
  exact ⟨rfl, rfl, h.1, h.2.2.1⟩

/-! ### Dedup cache: capacity bound and FIFO eviction -/

lemma mapSet_of_not_mem (l : List (String × ℤ)) (k : String) (v : ℤ)
    (h : l.any (fun p => p.1 == k) = false) :
    mapSet l k v = l ++ [(k, v)] := by
  unfold mapSet
  rw [if_neg (by simp [h])]

lemma mapSet_of_mem (l : List (String × ℤ)) (k : String) (v : ℤ)
    (h : l.any (fun p => p.1 == k) = true) :
    mapSet l k v = l.map (fun p => if p.1 == k then (k, v) else p) := by
  unfold mapSet
  rw [if_pos h]

lemma mapSet_length (l : List (String × ℤ)) (k : String) (v : ℤ) :
    (mapSet l k v).length = if l.any (fun p => p.1 == k) = true
      then l.length else l.length + 1 := by
  by_cases h : l.any (fun p => p.1 == k) = true
  · rw [if_pos h, mapSet_of_mem l k v h, List.length_map]
  · rw [if_neg h, mapSet_of_not_mem l k v (by revert h; cases l.any (fun p => p.1 == k) <;> simp),
      List.length_append, List.length_singleton]

lemma mapSet_keys_of_mem (l : List (String × ℤ)) (k : String) (v : ℤ)
    (h : l.any (fun p => p.1 == k) = true) :
    (mapSet l k v).map Prod.fst = l.map Prod.fst := by
  rw [mapSet_of_mem l k v h, List.map_map]
  refine List.map_congr_left fun p _ => ?_
  by_cases hpk : (p.1 == k) = true
  · simp only [Function.comp_apply, if_pos hpk]
    exact (beq_iff_eq.mp hpk).symm
  · simp only [Function.comp_apply, if_neg hpk]

lemma any_key_eq_keys_elem (l : List (String × ℤ)) (x : String) :
    l.any (fun p => p.1 == x) = (l.map Prod.fst).any (fun y => y == x) := by
  induction l with
  | nil => rfl
  | cons p t ih => simp [ih]

/-- C10.  On a cache at capacity (`maxSize ≥ 2`), `set` with a key that is
already present but is not the oldest-inserted key still evicts the oldest
entry: the oldest key disappears, the surviving keys are exactly the
non-oldest ones in order, and the size drops to `maxSize - 1`.  In general,
`set` keeps `size ≤ maxSize` for every cache with `maxSize ≥ 1` whose size
is within its capacity. -/
theorem C10_eviction_on_update (e0 : String × ℤ) (rest : List (String × ℤ))
    (m : ℕ) (k : String) (v : ℤ)
    (hm : 2 ≤ m) (hcap : (e0 :: rest).length = m)
    (hnd : ((e0 :: rest).map Prod.fst).Nodup)
    (hmem : rest.any (fun p => p.1 == k) = true) :
    ((SimpleCache.mk (e0 :: rest) m).set k v).size = m - 1 ∧
    ((SimpleCache.mk (e0 :: rest) m).set k v).has e0.1 = false ∧
    ((SimpleCache.mk (e0 :: rest) m).set k v).keys = rest.map Prod.fst ∧
    (∀ c : SimpleCache, 1 ≤ c.maxSize → c.size ≤ c.maxSize →
      (c.set k v).size ≤ c.maxSize) := by
  have hnotold : e0.1 ∉ rest.map Prod.fst := by
    rw [List.map_cons] at hnd
    exact (List.nodup_cons.mp hnd).1
  have hset : (SimpleCache.mk (e0 :: rest) m).set k v
      = ⟨mapSet rest k v, m⟩ := by
    unfold SimpleCache.set
    rw [if_pos (by simp [← hcap]), List.tail_cons]
  have hkeys : (mapSet rest k v).map Prod.fst = rest.map Prod.fst :=
    mapSet_keys_of_mem rest k v hmem
  refine ⟨?_, ?_, ?_, ?_⟩
  · rw [hset]
    unfold SimpleCache.size
    have hlen : rest.length + 1 = m := by simpa using hcap
    have := congrArg List.length hkeys
    rw [List.length_map, List.length_map] at this
    simp only [this]
    omega
  · rw [hset]
    unfold SimpleCache.has
    rw [any_key_eq_keys_elem, hkeys]
    rw [List.any_eq_false]
    intro y hy
    simp only [beq_iff_eq]
    intro hcontra
    exact hnotold (hcontra ▸ hy)
  · rw [hset]
    unfold SimpleCache.keys
    exact hkeys
  · intro c h1 h2
    unfold SimpleCache.set SimpleCache.size
    simp only []
    by_cases hcap2 : c.maxSize ≤ c.entries.length
    · rw [if_pos hcap2, mapSet_length, List.length_tail]
      unfold SimpleCache.size at h2
      split <;> omega
    · rw [if_neg hcap2, mapSet_length]
      unfold SimpleCache.size at h2
      split <;> omega

/-- Witness for C10: capacity-2 cache holding keys `a`, `b`; `set` on the
already-present non-oldest key `b` evicts `a` and shrinks to one entry. -/
theorem C10_eviction_on_update_witness :
    ((SimpleCache.mk [("a", 0), ("b", 0)] 2).set "b" 7).size = 1 ∧
    ((SimpleCache.mk [("a", 0), ("b", 0)] 2).set "b" 7).has "a" = false ∧
    ((SimpleCache.mk [("a", 0), ("b", 0)] 2).set "b" 7).keys = ["b"] := by
  have h := C10_eviction_on_update ("a", 0) [("b", 0)] 2 "b" 7
    (by decide) (by decide) (by decide) (by decide)
  exact ⟨h.1, h.2.1, h.2.2.1⟩

/-- An operation on the dedup cache.  `has` and `get` are pure reads in the
source (JavaScript `Map.has`/`Map.get` neither mutate nor reorder the map),
so running them leaves the cache state unchanged. -/
inductive CacheOp where
  | setOp (k : String) (v : ℤ)
  | hasOp (k : String)
  | getOp (k : String)
deriving Repr, DecidableEq

/-- Run a sequence of cache operations; reads do not change the state. -/
def runOps (ops : List CacheOp) (c : SimpleCache) : SimpleCache :=
  ops.foldl
    (fun c op =>
      match op with
      | CacheOp.setOp k v => c.set k v
      | CacheOp.hasOp _ => c
      | CacheOp.getOp _ => c)
    c

/-- The subsequence of write operations, as key-value pairs. -/
def setOps (ops : List CacheOp) : List (String × ℤ) :=
  ops.filterMap
    (fun op =>
      match op with
      | CacheOp.setOp k v => some (k, v)
      | _ => none)

lemma runOps_eq_foldl (ops : List CacheOp) (c : SimpleCache) :
    runOps ops c = (setOps ops).foldl (fun c p => c.set p.1 p.2) c := by
  induction ops generalizing c with
  | nil => rfl
  | cons op t ih =>
    cases op <;> simp only [runOps, setOps, List.foldl_cons, List.filterMap_cons] <;>
      exact ih _

lemma cacheSet_fresh_under_capacity (c : SimpleCache) (k : String) (v : ℤ)
    (hcap : c.entries.length < c.maxSize) (hfresh : c.has k = false) :
    c.set k v = ⟨c.entries ++ [(k, v)], c.maxSize⟩ := by
  unfold SimpleCache.has at hfresh
  unfold SimpleCache.set
  rw [if_neg (by omega)]
  dsimp only
  rw [mapSet_of_not_mem _ _ _ hfresh]

lemma foldl_set_fresh (l : List (String × ℤ)) (c : SimpleCache)
    (hcap : c.entries.length + l.length ≤ c.maxSize)
    (hfresh : ∀ p ∈ l, c.has p.1 = false)
    (hnd : (l.map Prod.fst).Nodup) :
    l.foldl (fun c p => c.set p.1 p.2) c = ⟨c.entries ++ l, c.maxSize⟩ := by
  induction l generalizing c with
  | nil => simp
  | cons p t ih =>
    rw [List.foldl_cons]
    have hstep : c.set p.1 p.2 = ⟨c.entries ++ [p], c.maxSize⟩ := by
      have := cacheSet_fresh_under_capacity c p.1 p.2
        (by simp only [List.length_cons] at hcap; omega)
        (hfresh p (by simp))
      simpa using this
    rw [hstep]
    have hnd' : (t.map Prod.fst).Nodup := by
      rw [List.map_cons, List.nodup_cons] at hnd
      exact hnd.2
    have hne : p.1 ∉ t.map Prod.fst := by
      rw [List.map_cons, List.nodup_cons] at hnd
      exact hnd.1
    have ihr := ih ⟨c.entries ++ [p], c.maxSize⟩
      (by simp only [List.length_append, List.length_singleton, List.length_nil,
            List.length_cons] at hcap ⊢; omega)
      (by
        intro q hq
        unfold SimpleCache.has
        simp only [List.any_append, List.any_cons, List.any_nil, Bool.or_false]
        have h1 : c.entries.any (fun r => r.1 == q.1) = false := hfresh q (by simp [hq])
        have h2 : (p.1 == q.1) = false := by
          rw [beq_eq_false_iff_ne]
          intro hcontra
          exact hne (hcontra ▸ List.mem_map_of_mem Prod.fst hq)
        rw [h1, h2]
        rfl)
      hnd'
    rw [ihr]
    simp

/-- C3.  Starting from an empty cache of capacity `m ≥ 1`, a sequence of
operations whose writes are `m + 1` distinct signatures — with arbitrary
`has`/`get` reads interleaved anywhere — leaves exactly the last `m` inserts
in insertion order: the size is `m`, the first-inserted signature is the one
evicted, and the reads influence nothing (insertion-order FIFO, not
LRU-by-access). -/
theorem C3_capacity_fifo (m : ℕ) (hm : 1 ≤ m) (ops : List CacheOp)
    (first : String × ℤ) (rest : List (String × ℤ))
    (hset : setOps ops = first :: rest)
    (hlen : rest.length = m)
    (hnd : ((first :: rest).map Prod.fst).Nodup) :
    runOps ops (SimpleCache.empty m) = ⟨rest, m⟩ ∧
    (runOps ops (SimpleCache.empty m)).size = m ∧
    (runOps ops (SimpleCache.empty m)).has first.1 = false := by
  have hne : rest ≠ [] := by
    intro hcontra
    rw [hcontra] at hlen
    simp at hlen
    omega
  have hnotold : first.1 ∉ rest.map Prod.fst := by
    rw [List.map_cons, List.nodup_cons] at hnd
    exact hnd.1
  have hndrest : (rest.map Prod.fst).Nodup := by
    rw [List.map_cons, List.nodup_cons] at hnd
    exact hnd.2
  have hsplit : rest.dropLast ++ [rest.getLast hne] = rest :=
    List.dropLast_append_getLast hne
  have hmidlen : rest.dropLast.length = m - 1 := by
    rw [List.length_dropLast, hlen]
  have hrun : runOps ops (SimpleCache.empty m) = ⟨rest, m⟩ := by
    rw [runOps_eq_foldl, hset, List.foldl_cons]
    have hfirst : (SimpleCache.empty m).set first.1 first.2
        = ⟨[first], m⟩ := by
      have := cacheSet_fresh_under_capacity (SimpleCache.empty m) first.1 first.2
        (by simp [SimpleCache.empty]; omega) rfl
      simpa [SimpleCache.empty] using this
    rw [hfirst, ← hsplit, List.foldl_append]
    have hmid : rest.dropLast.foldl (fun (c : SimpleCache) p => c.set p.1 p.2)
          (⟨[first], m⟩ : SimpleCache)
        = ⟨first :: rest.dropLast, m⟩ := by
      have := foldl_set_fresh rest.dropLast (⟨[first], m⟩ : SimpleCache)
        (by simp only [List.length_singleton, hmidlen]; omega)
        (by
          intro q hq
          unfold SimpleCache.has
          simp only [List.any_cons, List.any_nil, Bool.or_false]
          rw [beq_eq_false_iff_ne]
          intro hcontra
          exact hnotold (hcontra ▸
            List.mem_map_of_mem Prod.fst (List.dropLast_subset rest hq)))
        (List.Nodup.sublist ((List.dropLast_sublist rest).map Prod.fst) hndrest)
      simpa using this
    rw [hmid, List.foldl_cons, List.foldl_nil]
    have hlast : (⟨first :: rest.dropLast, m⟩ : SimpleCache).set
        (rest.getLast hne).1 (rest.getLast hne).2
        = ⟨rest, m⟩ := by
      unfold SimpleCache.set
      rw [if_pos (by simp only [List.length_cons, hmidlen]; omega), List.tail_cons]
      dsimp only
      rw [mapSet_of_not_mem]
      · simp [hsplit]
      · have hlastfresh : (rest.getLast hne).1 ∉ rest.dropLast.map Prod.fst := by
          have hnd2 : ((rest.dropLast ++ [rest.getLast hne]).map Prod.fst).Nodup := by
            rw [hsplit]
            exact hndrest
          rw [List.map_append] at hnd2
          have := List.disjoint_of_nodup_append hnd2
          intro hmem2
          exact this hmem2 (by simp)
        rw [List.any_eq_false]
        intro q hq
        simp only [beq_iff_eq]
        intro hcontra
        exact hlastfresh (hcontra ▸ List.mem_map_of_mem Prod.fst hq)
    rw [hlast, hsplit]
  refine ⟨hrun, ?_, ?_⟩
  · rw [hrun]
    unfold SimpleCache.size
    exact hlen
  · rw [hrun]
    unfold SimpleCache.has
    rw [List.any_eq_false]
    intro q hq
    simp only [beq_iff_eq]
    intro hcontra
    exact hnotold (hcontra ▸ List.mem_map_of_mem Prod.fst hq)

/-- Witness for C3: capacity 2, three distinct signatures with interleaved
reads; the first signature is evicted. -/
theorem C3_capacity_fifo_witness :
    runOps [CacheOp.setOp "s1" 10, CacheOp.hasOp "s1", CacheOp.setOp "s2" 20,
      CacheOp.getOp "s1", CacheOp.setOp "s3" 30] (SimpleCache.empty 2)
      = ⟨[("s2", 20), ("s3", 30)], 2⟩ ∧
    (runOps [CacheOp.setOp "s1" 10, CacheOp.hasOp "s1", CacheOp.setOp "s2" 20,
      CacheOp.getOp "s1", CacheOp.setOp "s3" 30] (SimpleCache.empty 2)).size = 2 ∧
    (runOps [CacheOp.setOp "s1" 10, CacheOp.hasOp "s1", CacheOp.setOp "s2" 20,
      CacheOp.getOp "s1", CacheOp.setOp "s3" 30] (SimpleCache.empty 2)).has "s1"
      = false :=
  C3_capacity_fifo 2 (by decide)
    [CacheOp.setOp "s1" 10, CacheOp.hasOp "s1", CacheOp.setOp "s2" 20,
      CacheOp.getOp "s1", CacheOp.setOp "s3" 30]
    ("s1", 10) [("s2", 20), ("s3", 30)] (by decide) (by decide) (by decide)

/-! ### Batching window -/

/-- C8.  With `batchWindow = 5` and no outstanding buckets: two trades
whose arrival times fall in the same 5-second bucket land in one bucket with
exactly one scheduled flush (at `t1 + 5000`); that flush removes the bucket
and emits exactly one aggregate notification containing both trades in
order; a trade arriving at or after the flush time starts a new bucket with
its own flush timer (its bucket key is strictly later).  And with
`batchWindow = 0` the batching component is bypassed entirely: a processed
record changes neither the bucket map nor the timers and is notified
immediately. -/
theorem C8_batch_window_behavior (cfg : BotConfig) (s : BotState)
    (t1 t2 t3 : ℕ) (r1 r2 r3 : TradeRecord)
    (hw : cfg.batchWindow = 5)
    (hbq : s.batchQueue = []) (hbt : s.batchTimers = [])
    (ht12 : t1 / 5000 = t2 / 5000)
    (ht3 : t1 + 5000 ≤ t3) :
    (handleBatchedNotification cfg t2 r2
        (handleBatchedNotification cfg t1 r1 s)).batchQueue
      = [(t1 / 5000, [r1, r2])] ∧
    (handleBatchedNotification cfg t2 r2
        (handleBatchedNotification cfg t1 r1 s)).batchTimers
      = [(t1 / 5000, t1 + 5000)] ∧
    (flushBucket (t1 / 5000)
        (handleBatchedNotification cfg t2 r2
          (handleBatchedNotification cfg t1 r1 s))).batchNotifications
      = s.batchNotifications ++ [[r1, r2]] ∧
    (flushBucket (t1 / 5000)
        (handleBatchedNotification cfg t2 r2
          (handleBatchedNotification cfg t1 r1 s))).batchQueue = [] ∧
    t1 / 5000 < t3 / 5000 ∧
    (handleBatchedNotification cfg t3 r3
        (flushBucket (t1 / 5000)
          (handleBatchedNotification cfg t2 r2
            (handleBatchedNotification cfg t1 r1 s)))).batchQueue
      = [(t3 / 5000, [r3])] ∧
    (handleBatchedNotification cfg t3 r3
        (flushBucket (t1 / 5000)
          (handleBatchedNotification cfg t2 r2
            (handleBatchedNotification cfg t1 r1 s)))).batchTimers
      = [(t3 / 5000, t3 + 5000)] ∧
    (∀ (cfg' : BotConfig) (now : ℕ) (sendOk : Bool) (s' : BotState)
        (tx : RawTransaction) (trade : TradeRecord),
      cfg'.batchWindow = 0 →
      ¬s'.processedTx.has tx.signature = true →
      TransactionParser.parseHeliusTransaction cfg' tx = some trade →
      (processTransaction cfg' now sendOk s' tx).state.batchQueue = s'.batchQueue ∧
      (processTransaction cfg' now sendOk s' tx).state.batchTimers = s'.batchTimers ∧
      (processTransaction cfg' now sendOk s' tx).state.notifications
        = s'.notifications ++ [trade]) := by
  have hk3 : t1 / 5000 < t3 / 5000 := by
    have h1 : (t1 + 5000) / 5000 ≤ t3 / 5000 := Nat.div_le_div_right ht3
    have h2 : (t1 + 5000) / 5000 = t1 / 5000 + 1 := Nat.add_div_right t1 (by norm_num)
    omega
  have hA : handleBatchedNotification cfg t1 r1 s
      = { s with batchQueue := [(t1 / 5000, [r1])]
                 batchTimers := [(t1 / 5000, t1 + 5000)] } := by
    unfold handleBatchedNotification
    simp [hw, hbq, hbt, bqHas, bqPush]
  have hB : handleBatchedNotification cfg t2 r2 (handleBatchedNotification cfg t1 r1 s)
      = { s with batchQueue := [(t1 / 5000, [r1, r2])]
                 batchTimers := [(t1 / 5000, t1 + 5000)] } := by
    rw [hA]
    unfold handleBatchedNotification
    simp only [hw]
    have hkey : t2 / (5 * 1000) = t1 / 5000 := by
      norm_num
      omega
    simp [hkey, bqHas, bqPush]
  have hC : flushBucket (t1 / 5000)
      (handleBatchedNotification cfg t2 r2 (handleBatchedNotification cfg t1 r1 s))
      = { s with batchQueue := []
                 batchTimers := []
                 batchNotifications := s.batchNotifications ++ [[r1, r2]] } := by
    rw [hB]
    unfold flushBucket
    simp [bqGet]
  have hD : handleBatchedNotification cfg t3 r3
      (flushBucket (t1 / 5000)
        (handleBatchedNotification cfg t2 r2 (handleBatchedNotification cfg t1 r1 s)))
      = { s with batchQueue := [(t3 / 5000, [r3])]
                 batchTimers := [(t3 / 5000, t3 + 5000)]
                 batchNotifications := s.batchNotifications ++ [[r1, r2]] } := by
    rw [hC]
    unfold handleBatchedNotification
    simp [hw, bqHas, bqPush]
  refine ⟨by rw [hB], by rw [hB], by rw [hC], by rw [hC], hk3, by rw [hD], by rw [hD], ?_⟩
  intro cfg' now sendOk s' tx trade hw0 hfresh hparse
  have hchar : processTransaction cfg' now sendOk s' tx
      = ⟨true,
          { s' with processedTx := s'.processedTx.set tx.signature (now : ℤ)
                    notifications := s'.notifications ++ [trade] }, 1⟩ := by
    unfold processTransaction
    rw [if_neg hfresh, hparse]
    simp only []
    rw [if_neg (by rw [hw0]; simp)]
  rw [hchar]
  exact ⟨rfl, rfl, rfl⟩

/-- The fixture configuration with a 5-second batch window. -/
def cfgBatch5 : BotConfig := { cfgFixture with batchWindow := 5 }

/-- Witness for C8 at concrete times 1000, 4000 (same bucket) and 7000
(after the flush). -/
theorem C8_batch_window_behavior_witness :
    (flushBucket (1000 / 5000)
        (handleBatchedNotification cfgBatch5 4000 v2BuyRec
          (handleBatchedNotification cfgBatch5 1000 v2BuyRec
            (BotState.empty 1000)))).batchNotifications
      = (BotState.empty 1000).batchNotifications ++ [[v2BuyRec, v2BuyRec]] ∧
    (handleBatchedNotification cfgBatch5 7000 v2BuyRec
        (flushBucket (1000 / 5000)
          (handleBatchedNotification cfgBatch5 4000 v2BuyRec
            (handleBatchedNotification cfgBatch5 1000 v2BuyRec
              (BotState.empty 1000))))).batchQueue
      = [(7000 / 5000, [v2BuyRec])] := by
  have h := C8_batch_window_behavior cfgBatch5 (BotState.empty 1000)
    1000 4000 7000 v2BuyRec v2BuyRec v2BuyRec rfl rfl rfl (by decide) (by decide)
  exact ⟨h.2.2.1, h.2.2.2.2.2.1⟩

/-! ### The rate-limited request queue

`queueRequest`/`processRequestQueue` are embedded as a discrete-event
simulation.  Tasks are identified by numbers; executing a task is
instantaneous (the drain `await`s it to completion before scheduling
anything else, so its duration only delays what follows and the claims'
timing is driven by the 1000 ms inter-task delay).  `executed` logs each
task with its execution time: a task's promise is resolved (or rejected,
for a throwing task — the drain treats both the same way) exactly when it
is executed, so the log order is the settlement order.  The source's two
timers are reified: `resumeTimer` is the pending `setTimeout` that ends the
inter-task delay, and the constructor's 60-second `setInterval` is fired by
the driver `runEvents` at 60000, 120000, … (it was registered before any
resume timer, so it fires first on ties). -/

/-- The queue-related fields of `BotService`. -/
structure RLState where
  requestQueue : List ℕ
  requestsThisMinute : ℕ
  requestWindowStart : ℕ
  isProcessingQueue : Bool
  executed : List (ℕ × ℕ)
  resumeTimer : Option ℕ
deriving Repr, DecidableEq

/-- `processRequestQueue` at wall-clock time `now`: bail out when already
draining or the queue is empty; reset the window when more than 60000 ms
have passed since `requestWindowStart`; stop (leaving the queue intact) when
the per-minute counter has reached the ceiling; otherwise mark the drain
active, shift the head task, count and execute it, and schedule the resume
callback 1000 ms ahead. -/
def processRequestQueue (maxReq now : ℕ) (s : RLState) : RLState :=
  if s.isProcessingQueue || s.requestQueue.isEmpty then s
  else
    let s1 :=
      if 60000 < now - s.requestWindowStart then
        { s with requestsThisMinute := 0, requestWindowStart := now }
      else s
    if maxReq ≤ s1.requestsThisMinute then s1
    else
      match s1.requestQueue with
      | [] => s1
      | t :: rest =>
        { s1 with requestQueue := rest
                  requestsThisMinute := s1.requestsThisMinute + 1
                  isProcessingQueue := true
                  executed := s1.executed ++ [(t, now)]
                  resumeTimer := some (now + 1000) }

/-- `queueRequest`: push the wrapped task at the back of the FIFO queue and
kick the drain. -/
def queueRequest (maxReq now task : ℕ) (s : RLState) : RLState :=
  processRequestQueue maxReq now { s with requestQueue := s.requestQueue ++ [task] }

/-- The resume `setTimeout` callback: clear the drain flag, then drain
again. -/
def resumeFire (maxReq now : ℕ) (s : RLState) : RLState :=
  processRequestQueue maxReq now { s with isProcessingQueue := false, resumeTimer := none }

/-- The constructor's 60-second `setInterval` callback: zero the counter,
restart the window, then drain. -/
def intervalFire (maxReq now : ℕ) (s : RLState) : RLState :=
  processRequestQueue maxReq now { s with requestsThisMinute := 0, requestWindowStart := now }

/-- The event loop: fire whichever of the pending resume callback and the
next interval tick is due first (the interval first on ties, having been
registered first), up to `fuel` events. -/
def runEvents (maxReq : ℕ) : ℕ → ℕ → RLState → RLState
  | 0, _, s => s
  | fuel + 1, nextTick, s =>
    match s.resumeTimer with
    | some r =>
      if r < nextTick then runEvents maxReq fuel nextTick (resumeFire maxReq r s)
      else runEvents maxReq fuel (nextTick + 60000) (intervalFire maxReq nextTick s)
    | none => runEvents maxReq fuel (nextTick + 60000) (intervalFire maxReq nextTick s)

/-- The queue state at service construction. -/
def initRL : RLState := ⟨[], 0, 0, false, [], none⟩

/-- Enqueue a burst of tasks back to back at time 0. -/
def enqueueAll (maxReq : ℕ) (tasks : List ℕ) (s : RLState) : RLState :=
  tasks.foldl (fun s t => queueRequest maxReq 0 t s) s

/-- The closed-form execution time of the `i`-th task (0-indexed) under
ceiling `c`: window `i / c`, slot `i % c` within the window. -/
def execTime (c i : ℕ) : ℕ := 60000 * (i / c) + 1000 * (i % c)

/-- The invariant state while the inter-task delay after the `(k+1)`-st
execution is pending. -/
def midState (c N k : ℕ) : RLState :=
  ⟨List.range' (k + 1) (N - (k + 1)),
   k % c + 1,
   60000 * (k / c),
   true,
   (List.range' 0 (k + 1)).map (fun i => (i, execTime c i)),
   some (execTime c k + 1000)⟩

lemma succ_div_mod_of_not_dvd (c k : ℕ) (h : ¬c ∣ (k + 1)) :
    (k + 1) / c = k / c ∧ (k + 1) % c = k % c + 1 := by
  have hdiv : (k + 1) / c = k / c := by
    rw [Nat.succ_div, if_neg h, Nat.add_zero]
  have e1 := Nat.div_add_mod k c
  have e2 := Nat.div_add_mod (k + 1) c
  rw [hdiv] at e2
  exact ⟨hdiv, by omega⟩

lemma succ_div_mod_of_dvd (c k : ℕ) (hc : 1 ≤ c) (h : c ∣ (k + 1)) :
    (k + 1) / c = k / c + 1 ∧ (k + 1) % c = 0 ∧ k % c = c - 1 := by
  have hdiv : (k + 1) / c = k / c + 1 := by
    rw [Nat.succ_div, if_pos h]
  have hmod : (k + 1) % c = 0 := Nat.mod_eq_zero_of_dvd h
  have e1 := Nat.div_add_mod k c
  have e2 := Nat.div_add_mod (k + 1) c
  rw [hdiv, hmod, Nat.mul_succ] at e2
  have hlt : k % c < c := Nat.mod_lt k hc
  exact ⟨hdiv, hmod, by omega⟩

lemma processRequestQueue_of_processing (maxReq now : ℕ) (s : RLState)
    (h : s.isProcessingQueue = true) :
    processRequestQueue maxReq now s = s := by
  unfold processRequestQueue
  rw [if_pos (by rw [h]; rfl)]

lemma processRequestQueue_of_empty (maxReq now : ℕ) (s : RLState)
    (h : s.requestQueue = []) :
    processRequestQueue maxReq now s = s := by
  unfold processRequestQueue
  rw [if_pos (by rw [h]; simp)]

lemma runEvents_executed_of_empty (maxReq : ℕ) (f nt : ℕ) (s : RLState)
    (h : s.requestQueue = []) :
    (runEvents maxReq f nt s).executed = s.executed := by
  induction f generalizing nt s with
  | zero => rfl
  | succ f ih =>
    unfold runEvents
    cases hr : s.resumeTimer with
    | some r =>
      simp only []
      by_cases hlt : r < nt
      · rw [if_pos hlt]
        have hfire : resumeFire maxReq r s
            = { s with isProcessingQueue := false, resumeTimer := none } := by
          unfold resumeFire
          exact processRequestQueue_of_empty _ _ _ h
        rw [hfire, ih]
        exact h
      · rw [if_neg hlt]
        have hfire : intervalFire maxReq nt s
            = { s with requestsThisMinute := 0, requestWindowStart := nt } := by
          unfold intervalFire
          exact processRequestQueue_of_empty _ _ _ h
        rw [hfire, ih]
        exact h
    | none =>
      simp only []
      have hfire : intervalFire maxReq nt s
          = { s with requestsThisMinute := 0, requestWindowStart := nt } := by
        unfold intervalFire
        exact processRequestQueue_of_empty _ _ _ h
      rw [hfire, ih]
      exact h

lemma queueRequest_of_processing (maxReq now task : ℕ) (s : RLState)
    (h : s.isProcessingQueue = true) :
    queueRequest maxReq now task s
      = { s with requestQueue := s.requestQueue ++ [task] } := by
  unfold queueRequest
  exact processRequestQueue_of_processing _ _ _ (by rw [h])

lemma enqueueAll_of_processing (maxReq : ℕ) (tasks : List ℕ) (s : RLState)
    (h : s.isProcessingQueue = true) :
    enqueueAll maxReq tasks s = { s with requestQueue := s.requestQueue ++ tasks } := by
  induction tasks generalizing s with
  | nil => simp [enqueueAll]
  | cons t ts ih =>
    unfold enqueueAll at ih ⊢
    rw [List.foldl_cons, queueRequest_of_processing maxReq 0 t s h,
      ih { s with requestQueue := s.requestQueue ++ [t] } h]
    simp

lemma enqueueAll_burst (c N : ℕ) (hc : 1 ≤ c) (hN : 1 ≤ N) :
    enqueueAll c (List.range' 0 N) initRL = midState c N 0 := by
  obtain ⟨M, rfl⟩ : ∃ M, N = M + 1 := ⟨N - 1, by omega⟩
  rw [List.range'_succ]
  unfold enqueueAll
  rw [List.foldl_cons]
  have hcpos : ¬c ≤ 0 := by omega
  have hfirst : queueRequest c 0 0 initRL
      = ⟨[], 1, 0, true, [(0, 0)], some 1000⟩ := by
    unfold queueRequest processRequestQueue initRL
    simp [hcpos]
  rw [hfirst]
  have := enqueueAll_of_processing c (List.range' 1 M)
    ⟨[], 1, 0, true, [(0, 0)], some 1000⟩ rfl
  unfold enqueueAll at this
  rw [this]
  unfold midState execTime
  simp

lemma processRequestQueue_exec (maxReq now : ℕ) (s : RLState) (t : ℕ)
    (rest : List ℕ)
    (hproc : s.isProcessingQueue = false)
    (hqueue : s.requestQueue = t :: rest)
    (hwin : ¬60000 < now - s.requestWindowStart)
    (hcap : ¬maxReq ≤ s.requestsThisMinute) :
    processRequestQueue maxReq now s
      = { s with requestQueue := rest
                 requestsThisMinute := s.requestsThisMinute + 1
                 isProcessingQueue := true
                 executed := s.executed ++ [(t, now)]
                 resumeTimer := some (now + 1000) } := by
  unfold processRequestQueue
  rw [if_neg (by rw [hproc, hqueue]; simp)]
  simp only [if_neg hwin]
  rw [if_neg hcap, hqueue]

lemma processRequestQueue_stall (maxReq now : ℕ) (s : RLState)
    (hproc : s.isProcessingQueue = false)
    (hne : s.requestQueue.isEmpty = false)
    (hwin : ¬60000 < now - s.requestWindowStart)
    (hcap : maxReq ≤ s.requestsThisMinute) :
    processRequestQueue maxReq now s = s := by
  unfold processRequestQueue
  rw [if_neg (by rw [hproc, hne]; simp)]
  simp only [if_neg hwin]
  rw [if_pos hcap]

lemma midStep_not_dvd (c N k : ℕ) (hc : 1 ≤ c) (hc60 : c ≤ 60) (hk : k + 1 < N)
    (h : ¬c ∣ (k + 1)) :
    resumeFire c (execTime c k + 1000) (midState c N k) = midState c N (k + 1) := by
  obtain ⟨hdiv, hmod⟩ := succ_div_mod_of_not_dvd c k h
  have hmltc : k % c + 1 < c := by
    have h1 : (k + 1) % c < c := Nat.mod_lt _ (by omega)
    omega
  have hnow : execTime c (k + 1) = execTime c k + 1000 := by
    unfold execTime
    rw [hdiv, hmod]
    ring
  have hq : N - (k + 1) = (N - (k + 2)) + 1 := by omega
  unfold resumeFire
  show processRequestQueue c (execTime c k + 1000)
      (⟨List.range' (k + 1) (N - (k + 1)), k % c + 1, 60000 * (k / c), false,
        (List.range' 0 (k + 1)).map (fun i => (i, execTime c i)), none⟩ : RLState)
    = midState c N (k + 1)
  rw [processRequestQueue_exec c (execTime c k + 1000) _ (k + 1)
    (List.range' (k + 2) (N - (k + 2)))
    rfl
    (by simp only []; rw [hq, List.range'_succ])
    (by simp only []; unfold execTime; omega)
    (by simp only []; omega)]
  unfold midState
  dsimp only
  rw [hnow, hdiv, hmod]
  rw [show List.range' 0 (k + 1 + 1) = List.range' 0 (k + 1) ++ [k + 1] by
    rw [List.range'_concat]; norm_num]
  simp [hnow]

lemma midStep_dvd_lt60 (c N k : ℕ) (hc : 1 ≤ c) (hclt : c < 60) (hk : k + 1 < N)
    (h : c ∣ (k + 1)) :
    intervalFire c (60000 * (k / c + 1))
        (resumeFire c (execTime c k + 1000) (midState c N k))
      = midState c N (k + 1) := by
  obtain ⟨hdiv, hmod, hmod'⟩ := succ_div_mod_of_dvd c k hc h
  have hq : N - (k + 1) = (N - (k + 2)) + 1 := by omega
  have hT : execTime c (k + 1) = 60000 * (k / c + 1) := by
    unfold execTime
    rw [hdiv, hmod]
    ring
  have hstall : resumeFire c (execTime c k + 1000) (midState c N k)
      = ⟨List.range' (k + 1) (N - (k + 1)), k % c + 1, 60000 * (k / c), false,
        (List.range' 0 (k + 1)).map (fun i => (i, execTime c i)), none⟩ := by
    unfold resumeFire
    show processRequestQueue c (execTime c k + 1000)
        (⟨List.range' (k + 1) (N - (k + 1)), k % c + 1, 60000 * (k / c), false,
          (List.range' 0 (k + 1)).map (fun i => (i, execTime c i)), none⟩ : RLState)
      = _
    refine processRequestQueue_stall c _ _ rfl ?_ ?_ ?_
    · simp only []
      rw [hq, List.range'_succ]
      rfl
    · simp only []
      unfold execTime
      omega
    · simp only []
      omega
  rw [hstall]
  unfold intervalFire
  show processRequestQueue c (60000 * (k / c + 1))
      (⟨List.range' (k + 1) (N - (k + 1)), 0, 60000 * (k / c + 1), false,
        (List.range' 0 (k + 1)).map (fun i => (i, execTime c i)), none⟩ : RLState)
    = midState c N (k + 1)
  rw [processRequestQueue_exec c (60000 * (k / c + 1)) _ (k + 1)
    (List.range' (k + 2) (N - (k + 2)))
    rfl
    (by simp only []; rw [hq, List.range'_succ])
    (by simp only []; omega)
    (by simp only []; omega)]
  unfold midState
  dsimp only
  rw [hT, hdiv, hmod]
  rw [show List.range' 0 (k + 1 + 1) = List.range' 0 (k + 1) ++ [k + 1] by
    rw [List.range'_concat]; norm_num]
  simp [hT]

lemma midStep_dvd_60 (N k : ℕ) (hk : k + 1 < N) (h : 60 ∣ (k + 1)) :
    resumeFire 60 (execTime 60 k + 1000)
        (intervalFire 60 (60000 * (k / 60 + 1)) (midState 60 N k))
      = midState 60 N (k + 1) := by
  obtain ⟨hdiv, hmod, hmod'⟩ := succ_div_mod_of_dvd 60 k (by omega) h
  have hq : N - (k + 1) = (N - (k + 2)) + 1 := by omega
  have hT : execTime 60 (k + 1) = 60000 * (k / 60 + 1) := by
    unfold execTime
    rw [hdiv, hmod]
    ring
  have htick : intervalFire 60 (60000 * (k / 60 + 1)) (midState 60 N k)
      = ⟨List.range' (k + 1) (N - (k + 1)), 0, 60000 * (k / 60 + 1), true,
        (List.range' 0 (k + 1)).map (fun i => (i, execTime 60 i)),
        some (execTime 60 k + 1000)⟩ := by
    unfold intervalFire
    exact processRequestQueue_of_processing _ _ _ rfl
  rw [htick]
  unfold resumeFire
  show processRequestQueue 60 (execTime 60 k + 1000)
      (⟨List.range' (k + 1) (N - (k + 1)), 0, 60000 * (k / 60 + 1), false,
        (List.range' 0 (k + 1)).map (fun i => (i, execTime 60 i)), none⟩ : RLState)
    = midState 60 N (k + 1)
  rw [processRequestQueue_exec 60 (execTime 60 k + 1000) _ (k + 1)
    (List.range' (k + 2) (N - (k + 2)))
    rfl
    (by simp only []; rw [hq, List.range'_succ])
    (by simp only []; unfold execTime; omega)
    (by simp only []; omega)]
  unfold midState
  dsimp only
  have hnow : execTime 60 k + 1000 = execTime 60 (k + 1) := by
    unfold execTime
    omega
  rw [hdiv, hmod, ← hnow]
  rw [show List.range' 0 (k + 1 + 1) = List.range' 0 (k + 1) ++ [k + 1] by
    rw [List.range'_concat]; norm_num]
  simp [← hnow]

lemma midStall_dvd (c N k : ℕ) (hc : 1 ≤ c) (hc60 : c ≤ 60) (hk : k + 1 < N)
    (h : c ∣ (k + 1)) :
    resumeFire c (execTime c k + 1000) (midState c N k)
      = ⟨List.range' (k + 1) (N - (k + 1)), k % c + 1, 60000 * (k / c), false,
        (List.range' 0 (k + 1)).map (fun i => (i, execTime c i)), none⟩ := by
  obtain ⟨hdiv, hmod, hmod'⟩ := succ_div_mod_of_dvd c k hc h
  have hq : N - (k + 1) = (N - (k + 2)) + 1 := by omega
  unfold resumeFire
  show processRequestQueue c (execTime c k + 1000)
      (⟨List.range' (k + 1) (N - (k + 1)), k % c + 1, 60000 * (k / c), false,
        (List.range' 0 (k + 1)).map (fun i => (i, execTime c i)), none⟩ : RLState)
    = _
  refine processRequestQueue_stall c _ _ rfl ?_ ?_ ?_
  · simp only []
    rw [hq, List.range'_succ]
    rfl
  · simp only []
    unfold execTime
    omega
  · simp only []
    omega

lemma runEvents_succ (maxReq f nt : ℕ) (s : RLState) :
    runEvents maxReq (f + 1) nt s
      = match s.resumeTimer with
        | some r =>
          if r < nt then runEvents maxReq f nt (resumeFire maxReq r s)
          else runEvents maxReq f (nt + 60000) (intervalFire maxReq nt s)
        | none => runEvents maxReq f (nt + 60000) (intervalFire maxReq nt s) := rfl

lemma runEvents_from_mid (c N : ℕ) (hc : 1 ≤ c) (hc60 : c ≤ 60) :
    ∀ (d k f : ℕ), N - (k + 1) = d → k + 1 ≤ N → 2 * d + 1 ≤ f →
    (runEvents c f (60000 * (k / c + 1)) (midState c N k)).executed
      = (List.range' 0 N).map (fun i => (i, execTime c i)) := by
  intro d
  induction d with
  | zero =>
    intro k f hd hk hf
    have hkN : k + 1 = N := by omega
    have hempty : (midState c N k).requestQueue = [] := by
      show List.range' (k + 1) (N - (k + 1)) = []
      rw [show N - (k + 1) = 0 by omega]
      rfl
    rw [runEvents_executed_of_empty _ _ _ _ hempty]
    show (List.range' 0 (k + 1)).map (fun i => (i, execTime c i)) = _
    rw [hkN]
  | succ d ih =>
    intro k f hd hk hf
    have hkN : k + 1 < N := by omega
    have hrt : (midState c N k).resumeTimer = some (execTime c k + 1000) := rfl
    by_cases hdvd : c ∣ (k + 1)
    · by_cases hc60' : c = 60
      · subst hc60'
        have hmod' := (succ_div_mod_of_dvd 60 k (by omega) hdvd).2.2
        have hdiv := (succ_div_mod_of_dvd 60 k (by omega) hdvd).1
        have hrT : execTime 60 k + 1000 = 60000 * (k / 60 + 1) := by
          unfold execTime
          omega
        obtain ⟨f2, rfl⟩ : ∃ f2, f = f2 + 2 := ⟨f - 2, by omega⟩
        have htick : intervalFire 60 (60000 * (k / 60 + 1)) (midState 60 N k)
            = ⟨List.range' (k + 1) (N - (k + 1)), 0, 60000 * (k / 60 + 1), true,
              (List.range' 0 (k + 1)).map (fun i => (i, execTime 60 i)),
              some (execTime 60 k + 1000)⟩ := by
          unfold intervalFire
          exact processRequestQueue_of_processing _ _ _ rfl
        have hstep1 : runEvents 60 (f2 + 2) (60000 * (k / 60 + 1)) (midState 60 N k)
            = runEvents 60 (f2 + 1) (60000 * (k / 60 + 1) + 60000)
                (intervalFire 60 (60000 * (k / 60 + 1)) (midState 60 N k)) := by
          rw [runEvents_succ, hrt]
          simp only []
          rw [if_neg (by omega)]
        have hrt2 : (intervalFire 60 (60000 * (k / 60 + 1))
            (midState 60 N k)).resumeTimer = some (execTime 60 k + 1000) := by
          rw [htick]
        have hstep2 : runEvents 60 (f2 + 1) (60000 * (k / 60 + 1) + 60000)
              (intervalFire 60 (60000 * (k / 60 + 1)) (midState 60 N k))
            = runEvents 60 f2 (60000 * (k / 60 + 1) + 60000)
                (resumeFire 60 (execTime 60 k + 1000)
                  (intervalFire 60 (60000 * (k / 60 + 1)) (midState 60 N k))) := by
          rw [runEvents_succ, hrt2]
          simp only []
          rw [if_pos (by omega)]
        rw [hstep1, hstep2, midStep_dvd_60 N k hkN hdvd]
        rw [show 60000 * (k / 60 + 1) + 60000 = 60000 * ((k + 1) / 60 + 1) by
          rw [hdiv]; ring]
        exact ih (k + 1) f2 (by omega) (by omega) (by omega)
      · have hclt : c < 60 := by omega
        have hmod' := (succ_div_mod_of_dvd c k hc hdvd).2.2
        have hdiv := (succ_div_mod_of_dvd c k hc hdvd).1
        have hlt : execTime c k + 1000 < 60000 * (k / c + 1) := by
          unfold execTime
          omega
        obtain ⟨f2, rfl⟩ : ∃ f2, f = f2 + 2 := ⟨f - 2, by omega⟩
        have hstep1 : runEvents c (f2 + 2) (60000 * (k / c + 1)) (midState c N k)
            = runEvents c (f2 + 1) (60000 * (k / c + 1))
                (resumeFire c (execTime c k + 1000) (midState c N k)) := by
          rw [runEvents_succ, hrt]
          simp only []
          rw [if_pos hlt]
        have hstall := midStall_dvd c N k hc hc60 hkN hdvd
        have hrt2 : (resumeFire c (execTime c k + 1000)
            (midState c N k)).resumeTimer = none := by
          rw [hstall]
        have hstep2 : runEvents c (f2 + 1) (60000 * (k / c + 1))
              (resumeFire c (execTime c k + 1000) (midState c N k))
            = runEvents c f2 (60000 * (k / c + 1) + 60000)
                (intervalFire c (60000 * (k / c + 1))
                  (resumeFire c (execTime c k + 1000) (midState c N k))) := by
          rw [runEvents_succ, hrt2]
        rw [hstep1, hstep2, midStep_dvd_lt60 c N k hc hclt hkN hdvd]
        rw [show 60000 * (k / c + 1) + 60000 = 60000 * ((k + 1) / c + 1) by
          rw [hdiv]; ring]
        exact ih (k + 1) f2 (by omega) (by omega) (by omega)
    · have hdiv := (succ_div_mod_of_not_dvd c k hdvd).1
      have hmod := (succ_div_mod_of_not_dvd c k hdvd).2
      have hmltc : k % c + 1 < c := by
        have h1 : (k + 1) % c < c := Nat.mod_lt _ (by omega)
        omega
      have hlt : execTime c k + 1000 < 60000 * (k / c + 1) := by
        unfold execTime
        omega
      obtain ⟨f1, rfl⟩ : ∃ f1, f = f1 + 1 := ⟨f - 1, by omega⟩
      have hstep1 : runEvents c (f1 + 1) (60000 * (k / c + 1)) (midState c N k)
          = runEvents c f1 (60000 * (k / c + 1))
              (resumeFire c (execTime c k + 1000) (midState c N k)) := by
        rw [runEvents_succ, hrt]
        simp only []
        rw [if_pos hlt]
      rw [hstep1, midStep_not_dvd c N k hc hc60 hkN hdvd]
      rw [show 60000 * (k / c + 1) = 60000 * ((k + 1) / c + 1) by rw [hdiv]]
      exact ih (k + 1) f1 (by omega) (by omega) (by omega)

/-- The full trace of the rate-limited queue under an N-task burst at time
0 with ceiling `c ≤ 60`: with enough events, task `i` executes at
`execTime c i`. -/
theorem rateLimiter_trace (c N f : ℕ) (hc : 1 ≤ c) (hc60 : c ≤ 60) (hN : 1 ≤ N)
    (hf : 2 * N + 1 ≤ f) :
    (runEvents c f 60000 (enqueueAll c (List.range' 0 N) initRL)).executed
      = (List.range' 0 N).map (fun i => (i, execTime c i)) := by
  rw [enqueueAll_burst c N hc hN]
  have h0 : (60000 : ℕ) = 60000 * (0 / c + 1) := by simp
  rw [h0]
  exact runEvents_from_mid c N hc hc60 (N - 1) 0 f (by omega) (by omega) (by omega)

/-- C7.  Rate-limited request queue at the configured ceiling of 50 calls
per minute: enqueuing `N > 50` tasks in one burst yields an execution log
that splits as the first 50 tasks — all strictly before the 60000 ms window
reset, exactly 50 of them — followed by the remaining `N - 50`, all at or
after the reset; each enqueued task is executed (its promise settled)
exactly once, in enqueue order (the log's task sequence is exactly
`0, …, N-1`); and an enqueue while a task is in flight only appends to the
queue, never starting a second concurrent execution. -/
theorem C7_rate_limiter_fifo_window (N f : ℕ) (hN : 50 < N) (hf : 2 * N + 1 ≤ f) :
    (runEvents 50 f 60000 (enqueueAll 50 (List.range' 0 N) initRL)).executed.map
        Prod.fst = List.range' 0 N ∧
    (runEvents 50 f 60000 (enqueueAll 50 (List.range' 0 N) initRL)).executed
      = (List.range' 0 50).map (fun i => (i, execTime 50 i))
        ++ (List.range' 50 (N - 50)).map (fun i => (i, execTime 50 i)) ∧
    ((List.range' 0 50).map (fun i => (i, execTime 50 i))).length = 50 ∧
    (∀ e ∈ (List.range' 0 50).map (fun i => (i, execTime 50 i)), e.2 < 60000) ∧
    (∀ e ∈ (List.range' 50 (N - 50)).map (fun i => (i, execTime 50 i)),
      60000 ≤ e.2) ∧
    (runEvents 50 f 60000 (enqueueAll 50 (List.range' 0 N) initRL)).executed.length
      = N ∧
    (∀ (s : RLState) (now task : ℕ), s.isProcessingQueue = true →
      queueRequest 50 now task s
        = { s with requestQueue := s.requestQueue ++ [task] }) := by
  have htrace := rateLimiter_trace 50 N f (by norm_num) (by norm_num)
    (by omega) hf
  have hsplit : List.range' 0 N
      = List.range' 0 50 ++ List.range' 50 (N - 50) := by
    have := List.range'_append 0 50 (N - 50) 1
    simp only [Nat.zero_add, Nat.one_mul] at this
    rw [this, show N - 50 + 50 = N by omega]
  refine ⟨?_, ?_, ?_, ?_, ?_, ?_, ?_⟩
  · rw [htrace, List.map_map]
    have : (Prod.fst ∘ fun i => ((i, execTime 50 i) : ℕ × ℕ)) = fun i => i := rfl
    rw [this]
    simp
  · rw [htrace, hsplit, List.map_append]
  · rw [List.length_map, List.length_range']
  · intro e he
    obtain ⟨i, hi, rfl⟩ := List.mem_map.mp he
    have him : i < 50 := by
      have := List.mem_range'_1.mp hi
      omega
    show execTime 50 i < 60000
    unfold execTime
    rw [Nat.div_eq_of_lt him, Nat.mod_eq_of_lt him]
    omega
  · intro e he
    obtain ⟨i, hi, rfl⟩ := List.mem_map.mp he
    have him : 50 ≤ i := by
      have := List.mem_range'_1.mp hi
      omega
    show 60000 ≤ execTime 50 i
    have h1 : 1 ≤ i / 50 := (Nat.one_le_div_iff (by norm_num)).mpr him
    unfold execTime
    omega
  · rw [htrace, List.length_map, List.length_range']
  · intro s now task h
    exact queueRequest_of_processing 50 now task s h

/-- Witness for C7 at a burst of 52 tasks with fuel 105. -/
theorem C7_rate_limiter_fifo_window_witness :
    (runEvents 50 105 60000 (enqueueAll 50 (List.range' 0 52) initRL)).executed.map
        Prod.fst = List.range' 0 52 ∧
    (runEvents 50 105 60000 (enqueueAll 50 (List.range' 0 52) initRL)).executed
      = (List.range' 0 50).map (fun i => (i, execTime 50 i))
        ++ (List.range' 50 (52 - 50)).map (fun i => (i, execTime 50 i)) := by
  have h := C7_rate_limiter_fifo_window 52 105 (by norm_num) (by norm_num)
  exact ⟨h.1, h.2.1⟩
